import Mathlib

/-!
Broadcast server: connection registry and broadcast dispatch.

A shallow embedding of `server/server.go`.

* A `*websocket.Conn` is represented by its identity (`Conn`), a message by its bytes.
* A Go map is an association list; `range` visits the entries in list order, which stands
  for the unspecified order of Go (every order is the order of some list).
* `WriteMessage` and `Close` belong to the websocket library and are not part of the
  repository: they are a parameter (`Transport`), with an arbitrary state of their own.
* Every write and close made by the server is recorded in a log of `Event`s.
-/

namespace BroadcastServer

/-- Identity of a `*websocket.Conn`. -/
abbrev Conn := Nat

/-- A message, `[]byte`. -/
abbrev Msg := List Nat

/-- A peer address as given on the command line. -/
abbrev Addr := String

/-- A Go map, as the list of its entries. -/
abbrev GoMap (κ ν : Type) := List (κ × ν)

namespace GoMap

variable {κ ν : Type}

/-- The keys of the map, in iteration order. -/
def keys (m : GoMap κ ν) : List κ := m.map Prod.fst

/-- The values of the map, in iteration order. -/
def values (m : GoMap κ ν) : List ν := m.map Prod.snd

/-- Go `delete(m, k)`: the entry under `k` is dropped, nothing happens when there is none. -/
def delete [DecidableEq κ] (m : GoMap κ ν) (k : κ) : GoMap κ ν :=
  m.filter (fun e => decide (e.1 ≠ k))

/-- Go `m[k] = v`: the entry under `k` is replaced or created. -/
def set [DecidableEq κ] (m : GoMap κ ν) (k : κ) (v : ν) : GoMap κ ν :=
  m.delete k ++ [(k, v)]

end GoMap

/-- The registry part of `type Server struct`: `clients` and `peers`.
The fields `broadcast` and `mu` are modelled by `Sys` below. -/
structure Server where
  /-- Field `clients map[*websocket.Conn]bool`. -/
  clients : GoMap Conn Bool
  /-- Field `peers map[string]*websocket.Conn`. -/
  peers : GoMap Addr Conn
deriving DecidableEq, Repr

/-- `NewServer`: both maps empty. -/
def NewServer : Server := ⟨[], []⟩

/-- What the server does to a connection. -/
inductive Event where
  /-- A call `conn.WriteMessage(websocket.TextMessage, msg)`; `ok` is `err == nil`. -/
  | write (conn : Conn) (msg : Msg) (ok : Bool)
  /-- A call `conn.Close()`. -/
  | close (conn : Conn)
deriving DecidableEq, Repr

/-- The websocket library, over its own state `W`. -/
structure Transport (W : Type) where
  /-- The call `conn.WriteMessage(websocket.TextMessage, msg)`: whether `err == nil`, and the new state. -/
  WriteMessage : W → Conn → Msg → Bool × W
  /-- The call `conn.Close()`. -/
  Close : W → Conn → W

/-- Registry, library state and the events produced. -/
structure Run (W : Type) where
  srv : Server
  world : W
  log : List Event

/-- Puts events in front of the log of a run. -/
def Run.after {W : Type} (es : List Event) (r : Run W) : Run W :=
  { r with log := es ++ r.log }

/-- The loop `for client := range s.clients` of `handleBroadcasts` (lines 132-139),
over the clients still to visit. The body deletes no entry but the one it visits, so the
entries still to visit are those of the map at the start of the loop. -/
def broadcastToClients {W : Type} (T : Transport W) (msg : Msg) :
    List Conn → Server → W → Run W
  | [], s, w => ⟨s, w, []⟩
  | client :: rest, s, w =>
    match T.WriteMessage w client msg with
    | (true, w1) =>
      (broadcastToClients T msg rest s w1).after [Event.write client msg true]
    | (false, w1) =>
      (broadcastToClients T msg rest
          { s with clients := s.clients.delete client } (T.Close w1 client)).after
        [Event.write client msg false, Event.close client]

/-- The loop `for _, peerConn := range s.peers` of `handleBroadcasts` (lines 141-147),
over the peer connections still to visit. -/
def broadcastToPeers {W : Type} (T : Transport W) (msg : Msg) :
    List Conn → Server → W → Run W
  | [], s, w => ⟨s, w, []⟩
  | peerConn :: rest, s, w =>
    match T.WriteMessage w peerConn msg with
    | (true, w1) =>
      (broadcastToPeers T msg rest s w1).after [Event.write peerConn msg true]
    | (false, w1) =>
      (broadcastToPeers T msg rest s (T.Close w1 peerConn)).after
        [Event.write peerConn msg false, Event.close peerConn]

/-- One dispatch sweep: the body of the loop of `handleBroadcasts` for the message `msg`
taken from the channel (lines 130-148, under `s.mu`). -/
def sweep {W : Type} (T : Transport W) (msg : Msg) (s : Server) (w : W) : Run W :=
  let r1 := broadcastToClients T msg s.clients.keys s w
  let r2 := broadcastToPeers T msg r1.srv.peers.values r1.srv r1.world
  r2.after r1.log

/-- The loop of `handleBroadcasts` over the messages it takes from the channel, in order. -/
def handleBroadcasts {W : Type} (T : Transport W) : List Msg → Server → W → Run W
  | [], s, w => ⟨s, w, []⟩
  | msg :: rest, s, w =>
    let r := sweep T msg s w
    (handleBroadcasts T rest r.srv r.world).after r.log

/-- The start of `handleConnections` (lines 50-59). `up` is the result of
`upgrader.Upgrade`, `none` for an error. -/
def handleConnections.accept (s : Server) : Option Conn → Server
  | none => s
  | some conn => { s with clients := s.clients.set conn true }

/-- One turn of the read loop of `handleConnections` (lines 63-73) for the connection
`conn`; the argument is the result of `conn.ReadMessage()`, `none` for an error.
Gives the registry and what is sent on `s.broadcast`. -/
def handleConnections.read (s : Server) (conn : Conn) : Option Msg → Server × Option Msg
  | none => ({ s with clients := s.clients.delete conn }, none)
  | some msg => (s, some msg)

/-- The start of `handlePeerConnections` (lines 78-85). -/
def handlePeerConnections.accept (s : Server) : Option Conn → Server
  | none => s
  | some _ => s

/-- One turn of the read loop of `handlePeerConnections` (lines 87-94). -/
def handlePeerConnections.read (s : Server) (_conn : Conn) :
    Option Msg → Server × Option Msg
  | none => (s, none)
  | some msg => (s, some msg)

/-- The start of `connectToPeer` (lines 99-106). `dial` is the result of
`websocket.DefaultDialer.Dial`, `none` for an error. -/
def connectToPeer.dial (s : Server) (peerAddress : Addr) : Option Conn → Server
  | none => s
  | some conn => { s with peers := s.peers.set peerAddress conn }

/-- One turn of the read loop started by `connectToPeer` (lines 112-122) for the
connection `conn` dialled at `peerAddress`. -/
def connectToPeer.read (s : Server) (peerAddress : Addr) (_conn : Conn) :
    Option Msg → Server × Option Msg
  | none => ({ s with peers := s.peers.delete peerAddress }, none)
  | some msg => (s, some msg)

/-- The sections of the goroutines that run under `s.mu`, and so one at a time. The channel
`s.broadcast` is unbuffered: a send by a read loop or by `UpdateAndBroadcastScore` is done
when `handleBroadcasts` receives it, so the order of submission is the order of the
`dispatch` actions. -/
inductive Action where
  /-- A client is accepted by `handleConnections` and registered. -/
  | accept (conn : Conn)
  /-- The read loop of `handleConnections` sees an error. -/
  | clientGone (conn : Conn)
  /-- A peer is accepted by `handlePeerConnections`. -/
  | inbound (conn : Conn)
  /-- The read loop of `handlePeerConnections` sees an error. -/
  | inboundGone (conn : Conn)
  /-- A peer is dialled by `connectToPeer` and registered. -/
  | dial (peerAddress : Addr) (conn : Conn)
  /-- The read loop of `connectToPeer` sees an error. -/
  | peerGone (peerAddress : Addr) (conn : Conn)
  /-- The loop of `handleBroadcasts` takes `msg` from the channel and sweeps. -/
  | dispatch (msg : Msg)
deriving DecidableEq, Repr

/-- The effect of one action; a read loop that ends closes its connection
(`defer conn.Close()`). -/
def step {W : Type} (T : Transport W) : Action → Server → W → Run W
  | Action.accept conn, s, w => ⟨handleConnections.accept s (some conn), w, []⟩
  | Action.clientGone conn, s, w =>
    ⟨(handleConnections.read s conn none).1, T.Close w conn, [Event.close conn]⟩
  | Action.inbound conn, s, w => ⟨handlePeerConnections.accept s (some conn), w, []⟩
  | Action.inboundGone conn, s, w =>
    ⟨(handlePeerConnections.read s conn none).1, T.Close w conn, [Event.close conn]⟩
  | Action.dial peerAddress conn, s, w => ⟨connectToPeer.dial s peerAddress (some conn), w, []⟩
  | Action.peerGone peerAddress conn, s, w =>
    ⟨(connectToPeer.read s peerAddress conn none).1, T.Close w conn, [Event.close conn]⟩
  | Action.dispatch msg, s, w => sweep T msg s w

/-- A run of the server: the actions one after the other. -/
def exec {W : Type} (T : Transport W) : List Action → Server → W → Run W
  | [], s, w => ⟨s, w, []⟩
  | a :: rest, s, w =>
    let r := step T a s w
    (exec T rest r.srv r.world).after r.log

/-- The messages taken from the channel during a run, in order. -/
def dispatched : List Action → List Msg
  | [] => []
  | Action.dispatch msg :: rest => msg :: dispatched rest
  | _ :: rest => dispatched rest

/-- The connections in the registry: the clients, then the peer connections. -/
def Server.conns (s : Server) : List Conn := s.clients.keys ++ s.peers.values

/-- Distinct registry entries hold distinct connections. -/
def Server.WF (s : Server) : Prop := s.conns.Nodup

instance (s : Server) : Decidable s.WF := by
  unfold Server.WF; infer_instance

/-- A connection that is accepted or dialled is a new one: it is not in the registry. -/
def Action.Fresh (s : Server) : Action → Prop
  | Action.accept conn => conn ∉ s.conns
  | Action.dial _ conn => conn ∉ s.conns
  | _ => True

instance (s : Server) (a : Action) : Decidable (a.Fresh s) := by
  cases a <;> unfold Action.Fresh <;> infer_instance

/-- Every connection accepted or dialled during the run is new when it is registered. -/
def Admissible {W : Type} (T : Transport W) : List Action → Server → W → Prop
  | [], _, _ => True
  | a :: rest, s, w =>
    a.Fresh s ∧ Admissible T rest (step T a s w).srv (step T a s w).world

/-! ## The mutex and the channel

`s.mu` and the unbuffered channel `s.broadcast`, with three goroutines: the loop of
`handleBroadcasts`, one call of `UpdateAndBroadcastScore`, and one read loop of
`handleConnections`. Only the control state is kept. -/

/-- Where the loop of `handleBroadcasts` stands. -/
inductive DispatchPc where
  /-- At `msg := <-s.broadcast` (line 129). -/
  | receive
  /-- Holds a message, at `s.mu.Lock()` (line 130). -/
  | lock
  /-- Holds `s.mu`, in the two loops (lines 131-147), before `s.mu.Unlock()`. -/
  | sweeping
deriving DecidableEq, Repr

/-- Where the call of `UpdateAndBroadcastScore` stands. The score has only string fields,
so `json.Marshal` gives no error and the call goes on to the send. -/
inductive AdminPc where
  /-- At `s.mu.Lock()` (line 154). -/
  | lock
  /-- Holds `s.mu`, at `s.broadcast <- msg` (line 165). -/
  | send
  /-- The send is done; the deferred `s.mu.Unlock()` (line 155) is next. -/
  | unlock
  /-- Returned. -/
  | done
deriving DecidableEq, Repr

/-- Where the read loop of `handleConnections` stands. -/
inductive ReaderPc where
  /-- At `conn.ReadMessage()` (line 64). -/
  | read
  /-- Holds a message, at `s.broadcast <- msg` (line 72). -/
  | send
  /-- The read failed, at `s.mu.Lock()` (line 67). -/
  | lock
  /-- Holds `s.mu`, at `delete` and `s.mu.Unlock()` (lines 68-69). -/
  | remove
  /-- Left the loop. -/
  | done
deriving DecidableEq, Repr

/-- The goroutines that can hold `s.mu`. -/
inductive Owner where
  | dispatcher
  | admin
  | reader
deriving DecidableEq, Repr

/-- The control state of the three goroutines and the holder of `s.mu`. -/
structure Sys where
  dispatcher : DispatchPc
  admin : AdminPc
  reader : ReaderPc
  mu : Option Owner
deriving DecidableEq, Repr

/-- The state after `Start`: the dispatcher waits for a message, nobody holds `s.mu`. -/
def Sys.init : Sys := ⟨DispatchPc.receive, AdminPc.lock, ReaderPc.read, none⟩

/-- The moves of the goroutines. -/
inductive Move where
  /-- `conn.ReadMessage()` gives a message. -/
  | readMsg
  /-- `conn.ReadMessage()` gives an error. -/
  | readErr
  /-- `s.broadcast <- msg` of the read loop meets `<-s.broadcast`. -/
  | readerSend
  /-- The read loop takes `s.mu` (line 67). -/
  | readerLock
  /-- The read loop deletes, releases `s.mu` and leaves (lines 68-70). -/
  | readerUnlock
  /-- `UpdateAndBroadcastScore` takes `s.mu` (line 154). -/
  | adminLock
  /-- `s.broadcast <- msg` of `UpdateAndBroadcastScore` meets `<-s.broadcast`. -/
  | adminSend
  /-- The deferred `s.mu.Unlock()` of `UpdateAndBroadcastScore`. -/
  | adminUnlock
  /-- The dispatcher takes `s.mu` (line 130). -/
  | dispatchLock
  /-- The dispatcher ends its sweep and releases `s.mu` (line 148). -/
  | dispatchUnlock
deriving DecidableEq, Repr

/-- One move, `none` when the goroutine cannot make it in this state: a `Lock` needs a free
mutex, a send on the unbuffered channel needs the dispatcher at its receive. -/
def Sys.move (s : Sys) : Move → Option Sys
  | Move.readMsg =>
    if s.reader = ReaderPc.read then some { s with reader := ReaderPc.send } else none
  | Move.readErr =>
    if s.reader = ReaderPc.read then some { s with reader := ReaderPc.lock } else none
  | Move.readerSend =>
    if s.reader = ReaderPc.send ∧ s.dispatcher = DispatchPc.receive then
      some { s with reader := ReaderPc.read, dispatcher := DispatchPc.lock }
    else none
  | Move.readerLock =>
    if s.reader = ReaderPc.lock ∧ s.mu = none then
      some { s with reader := ReaderPc.remove, mu := some Owner.reader }
    else none
  | Move.readerUnlock =>
    if s.reader = ReaderPc.remove then
      some { s with reader := ReaderPc.done, mu := none }
    else none
  | Move.adminLock =>
    if s.admin = AdminPc.lock ∧ s.mu = none then
      some { s with admin := AdminPc.send, mu := some Owner.admin }
    else none
  | Move.adminSend =>
    if s.admin = AdminPc.send ∧ s.dispatcher = DispatchPc.receive then
      some { s with admin := AdminPc.unlock, dispatcher := DispatchPc.lock }
    else none
  | Move.adminUnlock =>
    if s.admin = AdminPc.unlock then
      some { s with admin := AdminPc.done, mu := none }
    else none
  | Move.dispatchLock =>
    if s.dispatcher = DispatchPc.lock ∧ s.mu = none then
      some { s with dispatcher := DispatchPc.sweeping, mu := some Owner.dispatcher }
    else none
  | Move.dispatchUnlock =>
    if s.dispatcher = DispatchPc.sweeping then
      some { s with dispatcher := DispatchPc.receive, mu := none }
    else none

/-- An interleaving: the moves one after the other, `none` when one of them is not possible. -/
def Sys.moves : Sys → List Move → Option Sys
  | s, [] => some s
  | s, m :: rest =>
    match s.move m with
    | none => none
    | some s1 => s1.moves rest

/-- The dispatcher waits for `s.mu`, which `UpdateAndBroadcastScore` holds while it waits
for the dispatcher to take its message from the channel. -/
def Sys.Deadlocked (s : Sys) : Prop :=
  s.dispatcher = DispatchPc.lock ∧ s.mu = some Owner.admin ∧ s.admin = AdminPc.send

instance (s : Sys) : Decidable s.Deadlocked := by
  unfold Sys.Deadlocked; infer_instance

/-- The messages of the send attempts made to `c`, in order. -/
def attempted (c : Conn) (log : List Event) : List Msg :=
  log.filterMap (fun e =>
    match e with
    | Event.write c1 m _ => if c1 = c then some m else none
    | Event.close _ => none)

/-- The messages of the successful sends to `c`, in order. -/
def delivered (c : Conn) (log : List Event) : List Msg :=
  log.filterMap (fun e =>
    match e with
    | Event.write c1 m true => if c1 = c then some m else none
    | _ => none)

/-- The connections to which a send failed. -/
def failed (log : List Event) : List Conn :=
  log.filterMap (fun e =>
    match e with
    | Event.write c _ false => some c
    | _ => none)

/-- A library in which the writes to the connections of `bad` fail and all others succeed. -/
def failing (bad : List Conn) : Transport Unit where
  WriteMessage := fun _ c _ => (decide (c ∉ bad), ())
  Close := fun _ _ => ()

/-- Decides `Admissible`. -/
def Admissible.dec {W : Type} (T : Transport W) :
    (acts : List Action) → (s : Server) → (w : W) → Decidable (Admissible T acts s w)
  | [], _, _ => isTrue trivial
  | a :: rest, s, w =>
    match (inferInstance : Decidable (a.Fresh s)),
        Admissible.dec T rest (step T a s w).srv (step T a s w).world with
    | isTrue h1, isTrue h2 => isTrue ⟨h1, h2⟩
    | isFalse h1, _ => isFalse (fun h => h1 h.1)
    | _, isFalse h2 => isFalse (fun h => h2 h.2)

instance {W : Type} (T : Transport W) (acts : List Action) (s : Server) (w : W) :
    Decidable (Admissible T acts s w) := Admissible.dec T acts s w

/-- A registry with two clients and one outbound peer. -/
def demo : Server := ⟨[(1, true), (2, true)], [("s2:8081", 7)]⟩

/-- A run: a client comes, a peer is dialled, the client goes, with a message dispatched
after each. -/
def demoRun : List Action :=
  [Action.accept 1, Action.dispatch [10], Action.dial "s2:8081" 7, Action.dispatch [20],
   Action.clientGone 1, Action.dispatch [30]]

/-! ## Go maps -/

theorem GoMap.delete_sublist {κ ν : Type} [DecidableEq κ] (m : GoMap κ ν) (k : κ) :
    List.Sublist (m.delete k) m :=
  List.filter_sublist m

theorem GoMap.mem_keys_delete {κ ν : Type} [DecidableEq κ] (m : GoMap κ ν) (k x : κ) :
    x ∈ (m.delete k).keys ↔ x ∈ m.keys ∧ x ≠ k := by
  simp only [GoMap.keys, GoMap.delete, List.mem_map, List.mem_filter, decide_eq_true_eq]
  constructor
  · rintro ⟨e, ⟨he, hk⟩, rfl⟩
    exact ⟨⟨e, he, rfl⟩, hk⟩
  · rintro ⟨⟨e, he, rfl⟩, hk⟩
    exact ⟨e, ⟨he, hk⟩, rfl⟩

theorem GoMap.delete_of_not_mem {κ ν : Type} [DecidableEq κ] (m : GoMap κ ν) (k : κ)
    (h : k ∉ m.keys) : m.delete k = m := by
  simp only [GoMap.delete, List.filter_eq_self, decide_eq_true_eq]
  intro e he hk
  exact h (List.mem_map.mpr ⟨e, he, hk⟩)

theorem GoMap.delete_delete {κ ν : Type} [DecidableEq κ] (m : GoMap κ ν) (k : κ) :
    (m.delete k).delete k = m.delete k := by
  simp [GoMap.delete, List.filter_filter]

theorem GoMap.not_mem_keys_delete {κ ν : Type} [DecidableEq κ] (m : GoMap κ ν) (k : κ) :
    k ∉ (m.delete k).keys := by
  rw [GoMap.mem_keys_delete]
  exact fun h => h.2 rfl

theorem GoMap.mem_delete {κ ν : Type} [DecidableEq κ] (m : GoMap κ ν) (k : κ) (e : κ × ν) :
    e ∈ m.delete k ↔ e ∈ m ∧ e.1 ≠ k := by
  simp [GoMap.delete]

theorem GoMap.mem_keys_set {κ ν : Type} [DecidableEq κ] (m : GoMap κ ν) (k x : κ) (v : ν) :
    x ∈ (m.set k v).keys ↔ x = k ∨ x ∈ m.keys := by
  have h := GoMap.mem_keys_delete m k x
  simp only [GoMap.keys] at h
  simp only [GoMap.set, GoMap.keys, List.map_append, List.mem_append, h, List.map_cons,
    List.map_nil, List.mem_singleton]
  by_cases hx : x = k
  · simp [hx]
  · simp [hx]

theorem GoMap.set_set {κ ν : Type} [DecidableEq κ] (m : GoMap κ ν) (k : κ) (v v1 : ν) :
    (m.set k v).set k v1 = m.set k v1 := by
  simp [GoMap.set, GoMap.delete, List.filter_append, List.filter_filter]

theorem GoMap.delete_set {κ ν : Type} [DecidableEq κ] (m : GoMap κ ν) (k : κ) (v : ν) :
    (m.set k v).delete k = m.delete k := by
  simp [GoMap.set, GoMap.delete, List.filter_append, List.filter_filter]

theorem GoMap.values_set {κ ν : Type} [DecidableEq κ] (m : GoMap κ ν) (k : κ) (v : ν) :
    (m.set k v).values = (m.delete k).values ++ [v] := by
  simp [GoMap.set, GoMap.values]

theorem GoMap.mem_values_delete {κ ν : Type} [DecidableEq κ] (m : GoMap κ ν) (k : κ) (v : ν)
    (h : v ∈ (m.delete k).values) : v ∈ m.values :=
  ((GoMap.delete_sublist m k).map Prod.snd).subset h

/-! ## The log -/

@[simp] theorem attempted_nil (c : Conn) : attempted c [] = [] := rfl

@[simp] theorem attempted_append (c : Conn) (l1 l2 : List Event) :
    attempted c (l1 ++ l2) = attempted c l1 ++ attempted c l2 := by
  simp [attempted, List.filterMap_append]

@[simp] theorem attempted_write (c c1 : Conn) (m : Msg) (ok : Bool) (l : List Event) :
    attempted c (Event.write c1 m ok :: l)
      = (if c1 = c then [m] else []) ++ attempted c l := by
  by_cases h : c1 = c <;> simp [attempted, List.filterMap_cons, h]

@[simp] theorem attempted_close (c c1 : Conn) (l : List Event) :
    attempted c (Event.close c1 :: l) = attempted c l := by
  simp [attempted, List.filterMap_cons]

@[simp] theorem delivered_nil (c : Conn) : delivered c [] = [] := rfl

@[simp] theorem delivered_append (c : Conn) (l1 l2 : List Event) :
    delivered c (l1 ++ l2) = delivered c l1 ++ delivered c l2 := by
  simp [delivered, List.filterMap_append]

@[simp] theorem delivered_write_true (c c1 : Conn) (m : Msg) (l : List Event) :
    delivered c (Event.write c1 m true :: l)
      = (if c1 = c then [m] else []) ++ delivered c l := by
  by_cases h : c1 = c <;> simp [delivered, List.filterMap_cons, h]

@[simp] theorem delivered_write_false (c c1 : Conn) (m : Msg) (l : List Event) :
    delivered c (Event.write c1 m false :: l) = delivered c l := by
  simp [delivered, List.filterMap_cons]

@[simp] theorem delivered_close (c c1 : Conn) (l : List Event) :
    delivered c (Event.close c1 :: l) = delivered c l := by
  simp [delivered, List.filterMap_cons]

@[simp] theorem failed_nil : failed [] = [] := rfl

@[simp] theorem failed_append (l1 l2 : List Event) :
    failed (l1 ++ l2) = failed l1 ++ failed l2 := by
  simp [failed, List.filterMap_append]

@[simp] theorem failed_write_true (c : Conn) (m : Msg) (l : List Event) :
    failed (Event.write c m true :: l) = failed l := by
  simp [failed, List.filterMap_cons]

@[simp] theorem failed_write_false (c : Conn) (m : Msg) (l : List Event) :
    failed (Event.write c m false :: l) = c :: failed l := by
  simp [failed, List.filterMap_cons]

@[simp] theorem failed_close (c : Conn) (l : List Event) :
    failed (Event.close c :: l) = failed l := by
  simp [failed, List.filterMap_cons]

theorem mem_failed (c : Conn) (l : List Event) :
    c ∈ failed l ↔ ∃ m, Event.write c m false ∈ l := by
  induction l with
  | nil => simp
  | cons e l ih =>
    cases e with
    | write c1 m ok =>
      cases ok
      · simp only [failed_write_false, List.mem_cons, ih]
        constructor
        · rintro (rfl | ⟨m1, h⟩)
          · exact ⟨m, Or.inl rfl⟩
          · exact ⟨m1, Or.inr h⟩
        · rintro ⟨m1, h | h⟩
          · left; injection h
          · exact Or.inr ⟨m1, h⟩
      · simp [ih]
    | close c1 => simp [ih]

theorem delivered_sublist_attempted (c : Conn) (l : List Event) :
    List.Sublist (delivered c l) (attempted c l) := by
  induction l with
  | nil => simp
  | cons e l ih =>
    cases e with
    | write c1 m ok =>
      cases ok
      · simp only [delivered_write_false, attempted_write]
        exact List.Sublist.trans ih (List.sublist_append_right _ _)
      · simp only [delivered_write_true, attempted_write]
        exact List.Sublist.append (List.Sublist.refl _) ih
    | close c1 => simpa using ih

theorem delivered_eq_attempted (c : Conn) (l : List Event) (h : failed l = []) :
    delivered c l = attempted c l := by
  induction l with
  | nil => simp
  | cons e l ih =>
    cases e with
    | write c1 m ok =>
      cases ok
      · simp at h
      · simp only [failed_write_true] at h
        simp [ih h]
    | close c1 =>
      simp only [failed_close] at h
      simp [ih h]

@[simp] theorem Run.after_log {W : Type} (es : List Event) (r : Run W) :
    (r.after es).log = es ++ r.log := rfl

@[simp] theorem Run.after_srv {W : Type} (es : List Event) (r : Run W) :
    (r.after es).srv = r.srv := rfl

@[simp] theorem Run.after_world {W : Type} (es : List Event) (r : Run W) :
    (r.after es).world = r.world := rfl

/-! ## The two loops of a sweep -/

theorem write_cases {W : Type} (T : Transport W) (w : W) (c : Conn) (msg : Msg) :
    (∃ w1, T.WriteMessage w c msg = (true, w1)) ∨ (∃ w1, T.WriteMessage w c msg = (false, w1)) := by
  cases h : T.WriteMessage w c msg with
  | mk ok w1 =>
    cases ok
    · exact Or.inr ⟨w1, rfl⟩
    · exact Or.inl ⟨w1, rfl⟩

theorem broadcastToClients_sent {W : Type} (T : Transport W) (msg : Msg) (client : Conn)
    (rest : List Conn) (s : Server) (w w1 : W) (h : T.WriteMessage w client msg = (true, w1)) :
    broadcastToClients T msg (client :: rest) s w
      = (broadcastToClients T msg rest s w1).after [Event.write client msg true] := by
  simp [broadcastToClients, h]

theorem broadcastToClients_dropped {W : Type} (T : Transport W) (msg : Msg) (client : Conn)
    (rest : List Conn) (s : Server) (w w1 : W) (h : T.WriteMessage w client msg = (false, w1)) :
    broadcastToClients T msg (client :: rest) s w
      = (broadcastToClients T msg rest
          { s with clients := s.clients.delete client } (T.Close w1 client)).after
        [Event.write client msg false, Event.close client] := by
  simp [broadcastToClients, h]

theorem broadcastToPeers_sent {W : Type} (T : Transport W) (msg : Msg) (peerConn : Conn)
    (rest : List Conn) (s : Server) (w w1 : W) (h : T.WriteMessage w peerConn msg = (true, w1)) :
    broadcastToPeers T msg (peerConn :: rest) s w
      = (broadcastToPeers T msg rest s w1).after [Event.write peerConn msg true] := by
  simp [broadcastToPeers, h]

theorem broadcastToPeers_closed {W : Type} (T : Transport W) (msg : Msg) (peerConn : Conn)
    (rest : List Conn) (s : Server) (w w1 : W) (h : T.WriteMessage w peerConn msg = (false, w1)) :
    broadcastToPeers T msg (peerConn :: rest) s w
      = (broadcastToPeers T msg rest s (T.Close w1 peerConn)).after
        [Event.write peerConn msg false, Event.close peerConn] := by
  simp [broadcastToPeers, h]

theorem broadcastToClients_attempted {W : Type} (T : Transport W) (msg : Msg) (c : Conn)
    (cs : List Conn) (s : Server) (w : W) :
    attempted c (broadcastToClients T msg cs s w).log = List.replicate (cs.count c) msg := by
  induction cs generalizing s w with
  | nil => simp [broadcastToClients]
  | cons client rest ih =>
    rcases write_cases T w client msg with ⟨w1, h⟩ | ⟨w1, h⟩
    · rw [broadcastToClients_sent T msg client rest s w w1 h]
      by_cases hc : client = c
      · simp [ih, hc, List.replicate_succ]
      · simp [ih, hc, List.count_cons]
    · rw [broadcastToClients_dropped T msg client rest s w w1 h]
      by_cases hc : client = c
      · simp [ih, hc, List.replicate_succ]
      · simp [ih, hc, List.count_cons]

theorem broadcastToClients_peers {W : Type} (T : Transport W) (msg : Msg)
    (cs : List Conn) (s : Server) (w : W) :
    (broadcastToClients T msg cs s w).srv.peers = s.peers := by
  induction cs generalizing s w with
  | nil => simp [broadcastToClients]
  | cons client rest ih =>
    rcases write_cases T w client msg with ⟨w1, h⟩ | ⟨w1, h⟩
    · rw [broadcastToClients_sent T msg client rest s w w1 h]
      simp [ih]
    · rw [broadcastToClients_dropped T msg client rest s w w1 h]
      simp [ih]

theorem broadcastToClients_clients {W : Type} (T : Transport W) (msg : Msg)
    (cs : List Conn) (s : Server) (w : W) :
    (broadcastToClients T msg cs s w).srv.clients
      = s.clients.filter
          (fun e => decide (e.1 ∉ failed (broadcastToClients T msg cs s w).log)) := by
  induction cs generalizing s w with
  | nil => simp [broadcastToClients]
  | cons client rest ih =>
    rcases write_cases T w client msg with ⟨w1, h⟩ | ⟨w1, h⟩
    · rw [broadcastToClients_sent T msg client rest s w w1 h]
      simp only [Run.after_srv, Run.after_log, List.cons_append, List.nil_append,
        failed_write_true]
      rw [ih]
    · rw [broadcastToClients_dropped T msg client rest s w w1 h]
      simp only [Run.after_srv, Run.after_log, List.cons_append, List.nil_append,
        failed_write_false, failed_close]
      rw [ih]
      simp only [GoMap.delete, List.filter_filter]
      apply List.filter_congr
      intro e _
      simp only [List.mem_cons, not_or, ne_eq, decide_not, Bool.decide_and]
      exact Bool.and_comm _ _

theorem broadcastToClients_failed {W : Type} (T : Transport W) (msg : Msg) (c : Conn)
    (cs : List Conn) (s : Server) (w : W)
    (h : c ∈ failed (broadcastToClients T msg cs s w).log) : c ∈ cs := by
  induction cs generalizing s w with
  | nil => simp [broadcastToClients] at h
  | cons client rest ih =>
    rcases write_cases T w client msg with ⟨w1, hw⟩ | ⟨w1, hw⟩
    · rw [broadcastToClients_sent T msg client rest s w w1 hw] at h
      simp only [Run.after_log, List.cons_append, List.nil_append,
        failed_write_true] at h
      exact List.mem_cons_of_mem _ (ih _ _ h)
    · rw [broadcastToClients_dropped T msg client rest s w w1 hw] at h
      simp only [Run.after_log, List.cons_append, List.nil_append, failed_write_false,
        failed_close, List.mem_cons] at h
      rcases h with rfl | h
      · exact List.mem_cons_self _ _
      · exact List.mem_cons_of_mem _ (ih _ _ h)

theorem broadcastToPeers_attempted {W : Type} (T : Transport W) (msg : Msg) (c : Conn)
    (ps : List Conn) (s : Server) (w : W) :
    attempted c (broadcastToPeers T msg ps s w).log = List.replicate (ps.count c) msg := by
  induction ps generalizing w with
  | nil => simp [broadcastToPeers]
  | cons peerConn rest ih =>
    rcases write_cases T w peerConn msg with ⟨w1, h⟩ | ⟨w1, h⟩
    · rw [broadcastToPeers_sent T msg peerConn rest s w w1 h]
      by_cases hc : peerConn = c
      · simp [ih, hc, List.replicate_succ]
      · simp [ih, hc, List.count_cons]
    · rw [broadcastToPeers_closed T msg peerConn rest s w w1 h]
      by_cases hc : peerConn = c
      · simp [ih, hc, List.replicate_succ]
      · simp [ih, hc, List.count_cons]

theorem broadcastToPeers_srv {W : Type} (T : Transport W) (msg : Msg)
    (ps : List Conn) (s : Server) (w : W) :
    (broadcastToPeers T msg ps s w).srv = s := by
  induction ps generalizing w with
  | nil => simp [broadcastToPeers]
  | cons peerConn rest ih =>
    rcases write_cases T w peerConn msg with ⟨w1, h⟩ | ⟨w1, h⟩
    · rw [broadcastToPeers_sent T msg peerConn rest s w w1 h]
      simp [ih]
    · rw [broadcastToPeers_closed T msg peerConn rest s w w1 h]
      simp [ih]

theorem broadcastToPeers_failed {W : Type} (T : Transport W) (msg : Msg) (c : Conn)
    (ps : List Conn) (s : Server) (w : W)
    (h : c ∈ failed (broadcastToPeers T msg ps s w).log) : c ∈ ps := by
  induction ps generalizing w with
  | nil => simp [broadcastToPeers] at h
  | cons peerConn rest ih =>
    rcases write_cases T w peerConn msg with ⟨w1, hw⟩ | ⟨w1, hw⟩
    · rw [broadcastToPeers_sent T msg peerConn rest s w w1 hw] at h
      simp only [Run.after_log, List.cons_append, List.nil_append,
        failed_write_true] at h
      exact List.mem_cons_of_mem _ (ih _ h)
    · rw [broadcastToPeers_closed T msg peerConn rest s w w1 hw] at h
      simp only [Run.after_log, List.cons_append, List.nil_append, failed_write_false,
        failed_close, List.mem_cons] at h
      rcases h with rfl | h
      · exact List.mem_cons_self _ _
      · exact List.mem_cons_of_mem _ (ih _ h)

/-! ## One sweep -/

theorem sweep_log {W : Type} (T : Transport W) (msg : Msg) (s : Server) (w : W) :
    (sweep T msg s w).log
      = (broadcastToClients T msg s.clients.keys s w).log
        ++ (broadcastToPeers T msg s.peers.values
              (broadcastToClients T msg s.clients.keys s w).srv
              (broadcastToClients T msg s.clients.keys s w).world).log := by
  simp [sweep, broadcastToClients_peers]

theorem sweep_peers {W : Type} (T : Transport W) (msg : Msg) (s : Server) (w : W) :
    (sweep T msg s w).srv.peers = s.peers := by
  simp [sweep, broadcastToPeers_srv, broadcastToClients_peers]

theorem sweep_clients {W : Type} (T : Transport W) (msg : Msg) (s : Server) (w : W) :
    (sweep T msg s w).srv.clients
      = s.clients.filter
          (fun e => decide (e.1 ∉ failed (broadcastToClients T msg s.clients.keys s w).log)) := by
  simp only [sweep, Run.after_srv, broadcastToPeers_srv]
  exact broadcastToClients_clients T msg s.clients.keys s w

theorem sweep_attempted {W : Type} (T : Transport W) (msg : Msg) (c : Conn)
    (s : Server) (w : W) :
    attempted c (sweep T msg s w).log = List.replicate (s.conns.count c) msg := by
  rw [sweep_log, attempted_append, broadcastToClients_attempted, broadcastToPeers_attempted,
    Server.conns, List.count_append, List.replicate_add]

theorem sweep_attempted_of_mem {W : Type} (T : Transport W) (msg : Msg) (c : Conn)
    (s : Server) (w : W) (hwf : s.WF) (hc : c ∈ s.conns) :
    attempted c (sweep T msg s w).log = [msg] := by
  rw [sweep_attempted, List.count_eq_one_of_mem hwf hc]
  rfl

theorem sweep_attempted_of_not_mem {W : Type} (T : Transport W) (msg : Msg) (c : Conn)
    (s : Server) (w : W) (hc : c ∉ s.conns) :
    attempted c (sweep T msg s w).log = [] := by
  rw [sweep_attempted, List.count_eq_zero_of_not_mem hc]
  rfl

theorem sweep_clients_sublist {W : Type} (T : Transport W) (msg : Msg) (s : Server) (w : W) :
    List.Sublist (sweep T msg s w).srv.clients s.clients := by
  rw [sweep_clients]
  exact List.filter_sublist _

theorem sweep_conns_sublist {W : Type} (T : Transport W) (msg : Msg) (s : Server) (w : W) :
    List.Sublist (sweep T msg s w).srv.conns s.conns := by
  unfold Server.conns
  rw [sweep_peers]
  exact List.Sublist.append ((sweep_clients_sublist T msg s w).map _) (List.Sublist.refl _)

theorem mem_attempted (c : Conn) (m : Msg) (ok : Bool) (l : List Event)
    (h : Event.write c m ok ∈ l) : m ∈ attempted c l := by
  simp only [attempted, List.mem_filterMap]
  exact ⟨Event.write c m ok, h, by simp⟩

theorem sweep_write_msg {W : Type} (T : Transport W) (msg : Msg) (s : Server) (w : W)
    (c : Conn) (m : Msg) (ok : Bool) (h : Event.write c m ok ∈ (sweep T msg s w).log) :
    m = msg := by
  have h1 := mem_attempted c m ok _ h
  rw [sweep_attempted] at h1
  exact (List.mem_replicate.mp h1).2

theorem WF_disjoint (s : Server) (hwf : s.WF) (c : Conn) (h1 : c ∈ s.clients.keys)
    (h2 : c ∈ s.peers.values) : False := by
  unfold Server.WF Server.conns at hwf
  exact (List.nodup_append.mp hwf).2.2 h1 h2

theorem sweep_failed_client {W : Type} (T : Transport W) (msg : Msg) (s : Server) (w : W)
    (hwf : s.WF) (c : Conn) (hc : c ∈ s.clients.keys) :
    c ∈ failed (broadcastToClients T msg s.clients.keys s w).log
      ↔ Event.write c msg false ∈ (sweep T msg s w).log := by
  constructor
  · intro h
    obtain ⟨m, hm⟩ := (mem_failed c _).mp h
    have hin : Event.write c m false ∈ (sweep T msg s w).log := by
      rw [sweep_log]
      exact List.mem_append_left _ hm
    have := sweep_write_msg T msg s w c m false hin
    rw [this] at hin
    exact hin
  · intro h
    rw [sweep_log] at h
    rcases List.mem_append.mp h with h | h
    · exact (mem_failed c _).mpr ⟨msg, h⟩
    · have hp := broadcastToPeers_failed T msg c _ _ _ ((mem_failed c _).mpr ⟨msg, h⟩)
      exact (WF_disjoint s hwf c hc hp).elim

/-! ## The invariant of the registry -/

theorem step_conns_WF {W : Type} (T : Transport W) (a : Action) (s : Server) (w : W)
    (hwf : s.WF) (hfresh : a.Fresh s) : (step T a s w).srv.WF := by
  cases a with
  | accept conn =>
    have hk : conn ∉ s.clients.keys := fun h => hfresh (List.mem_append_left _ h)
    simp only [step, handleConnections.accept, GoMap.set, Server.WF, Server.conns,
      GoMap.delete_of_not_mem _ _ hk, GoMap.keys, List.map_append, List.map_cons, List.map_nil,
      List.append_assoc, List.singleton_append]
    exact (List.perm_middle.nodup_iff).mpr (List.nodup_cons.mpr ⟨hfresh, hwf⟩)
  | clientGone conn =>
    simp only [step, handleConnections.read, Server.WF, Server.conns]
    exact List.Nodup.sublist
      (List.Sublist.append ((GoMap.delete_sublist _ _).map _) (List.Sublist.refl _)) hwf
  | inbound conn => exact hwf
  | inboundGone conn => exact hwf
  | dial peerAddress conn =>
    simp only [step, connectToPeer.dial, GoMap.set, Server.WF, Server.conns, GoMap.values,
      List.map_append, List.map_cons, List.map_nil]
    have hsub : List.Sublist
        (s.clients.keys ++ (List.map Prod.snd (GoMap.delete s.peers peerAddress) ++ [conn]))
        (s.clients.keys ++ (s.peers.values ++ [conn])) :=
      List.Sublist.append (List.Sublist.refl _)
        (List.Sublist.append ((GoMap.delete_sublist _ _).map _) (List.Sublist.refl _))
    refine List.Nodup.sublist hsub ?_
    rw [← List.append_assoc]
    exact (List.perm_append_singleton conn _).nodup_iff.mpr (List.nodup_cons.mpr ⟨hfresh, hwf⟩)
  | peerGone peerAddress conn =>
    simp only [step, connectToPeer.read, Server.WF, Server.conns]
    exact List.Nodup.sublist
      (List.Sublist.append (List.Sublist.refl _) ((GoMap.delete_sublist _ _).map _)) hwf
  | dispatch msg =>
    exact List.Nodup.sublist (sweep_conns_sublist T msg s w) hwf

theorem step_attempted {W : Type} (T : Transport W) (a : Action) (s : Server) (w : W)
    (hwf : s.WF) (c : Conn) :
    List.Sublist (attempted c (step T a s w).log) (dispatched [a]) := by
  cases a with
  | dispatch msg =>
    simp only [step, dispatched]
    by_cases hc : c ∈ s.conns
    · rw [sweep_attempted_of_mem T msg c s w hwf hc]
    · rw [sweep_attempted_of_not_mem T msg c s w hc]
      exact List.nil_sublist _
  | _ => simp [step, dispatched]

theorem dispatched_cons (a : Action) (rest : List Action) :
    dispatched (a :: rest) = dispatched [a] ++ dispatched rest := by
  cases a <;> simp [dispatched]

theorem exec_attempted {W : Type} (T : Transport W) (acts : List Action) (s : Server) (w : W)
    (c : Conn) (hwf : s.WF) (hadm : Admissible T acts s w) :
    List.Sublist (attempted c (exec T acts s w).log) (dispatched acts) := by
  induction acts generalizing s w with
  | nil => simp [exec, dispatched]
  | cons a rest ih =>
    obtain ⟨hfresh, hrest⟩ := hadm
    rw [dispatched_cons]
    simp only [exec, Run.after_log, attempted_append]
    exact List.Sublist.append (step_attempted T a s w hwf c)
      (ih _ _ (step_conns_WF T a s w hwf hfresh) hrest)

theorem exec_dispatch {W : Type} (T : Transport W) (ms : List Msg) (s : Server) (w : W) :
    (exec T (ms.map Action.dispatch) s w).log = (handleBroadcasts T ms s w).log
      ∧ (exec T (ms.map Action.dispatch) s w).srv = (handleBroadcasts T ms s w).srv := by
  induction ms generalizing s w with
  | nil => simp [exec, handleBroadcasts]
  | cons m rest ih =>
    simp only [List.map_cons, exec, step, handleBroadcasts, Run.after_log, Run.after_srv]
    exact ⟨by rw [(ih _ _).1], (ih _ _).2⟩

/-! ## The dispatch sweep -/

/-- C1: for every registry whose entries hold distinct connections and every message `M`,
the sweep for `M` makes exactly one send attempt, carrying `M`, to each client and each peer
connection registered when it begins, none to any other connection, and when no send fails
each of them is delivered `M` exactly once. -/
theorem C1_sweep_one_attempt_each {W : Type} (T : Transport W) (M : Msg) (s : Server) (w : W)
    (hwf : s.WF) :
    (∀ c, c ∈ s.conns → attempted c (sweep T M s w).log = [M])
      ∧ (∀ c, c ∉ s.conns → attempted c (sweep T M s w).log = [])
      ∧ (failed (sweep T M s w).log = [] →
          ∀ c, c ∈ s.conns → delivered c (sweep T M s w).log = [M]) := by
  refine ⟨fun c hc => sweep_attempted_of_mem T M c s w hwf hc,
    fun c hc => sweep_attempted_of_not_mem T M c s w hc, fun hok c hc => ?_⟩
  rw [delivered_eq_attempted c _ hok]
  exact sweep_attempted_of_mem T M c s w hwf hc

/-- C1 at `demo` with a library that never fails: one delivery each to the clients 1, 2 and
the peer 7, nothing to 9. -/
theorem C1_sweep_one_attempt_each_witness :
    demo.WF
      ∧ attempted 1 (sweep (failing []) [104, 105] demo ()).log = [[104, 105]]
      ∧ attempted 9 (sweep (failing []) [104, 105] demo ()).log = []
      ∧ delivered 7 (sweep (failing []) [104, 105] demo ()).log = [[104, 105]] :=
  ⟨by decide,
    (C1_sweep_one_attempt_each (failing []) [104, 105] demo () (by decide)).1 1 (by decide),
    (C1_sweep_one_attempt_each (failing []) [104, 105] demo () (by decide)).2.1 9 (by decide),
    (C1_sweep_one_attempt_each (failing []) [104, 105] demo () (by decide)).2.2 (by decide) 7
      (by decide)⟩

/-- C2: when the send of `M` to a connection `C` fails in a sweep, every other connection
registered at the start of the sweep still gets its one send of `M` in that sweep, and when
`C` is a client the client set after the sweep does not contain `C`. -/
theorem C2_failure_does_not_abort_sweep {W : Type} (T : Transport W) (M : Msg) (s : Server)
    (w : W) (C : Conn) (hwf : s.WF) (hfail : Event.write C M false ∈ (sweep T M s w).log) :
    (∀ c, c ∈ s.conns → c ≠ C → attempted c (sweep T M s w).log = [M])
      ∧ (C ∈ s.clients.keys → C ∉ (sweep T M s w).srv.clients.keys) := by
  refine ⟨fun c hc _ => sweep_attempted_of_mem T M c s w hwf hc, fun hC hin => ?_⟩
  have hf := (sweep_failed_client T M s w hwf C hC).mpr hfail
  rw [sweep_clients] at hin
  obtain ⟨e, he, rfl⟩ := List.mem_map.mp hin
  have := (List.mem_filter.mp he).2
  simp only [decide_eq_true_eq] at this
  exact this hf

/-- C2 at `demo` when the write to client 2 fails: client 1 and peer 7 get the message,
client 2 is gone. -/
theorem C2_failure_does_not_abort_sweep_witness :
    demo.WF
      ∧ Event.write 2 [104] false ∈ (sweep (failing [2]) [104] demo ()).log
      ∧ attempted 1 (sweep (failing [2]) [104] demo ()).log = [[104]]
      ∧ attempted 7 (sweep (failing [2]) [104] demo ()).log = [[104]]
      ∧ 2 ∉ (sweep (failing [2]) [104] demo ()).srv.clients.keys :=
  ⟨by decide, by decide,
    (C2_failure_does_not_abort_sweep (failing [2]) [104] demo () 2 (by decide)
      (by decide)).1 1 (by decide) (by decide),
    (C2_failure_does_not_abort_sweep (failing [2]) [104] demo () 2 (by decide)
      (by decide)).1 7 (by decide) (by decide),
    (C2_failure_does_not_abort_sweep (failing [2]) [104] demo () 2 (by decide)
      (by decide)).2 (by decide)⟩

/-- C3: the dispatch loop does the whole sweep of a message before it starts the next one,
and in every run of the server in which each registered connection is a new one, the
messages sent to a connection, and those delivered to it, form a subsequence of the messages
in the order in which the dispatcher took them from the channel. -/
theorem C3_delivery_follows_submission_order {W : Type} (T : Transport W)
    (acts : List Action) (s : Server) (w : W) (c : Conn) (hwf : s.WF)
    (hadm : Admissible T acts s w) :
    List.Sublist (delivered c (exec T acts s w).log) (dispatched acts)
      ∧ List.Sublist (attempted c (exec T acts s w).log) (dispatched acts)
      ∧ (∀ M1 rest, (handleBroadcasts T (M1 :: rest) s w).log
          = (sweep T M1 s w).log
            ++ (handleBroadcasts T rest (sweep T M1 s w).srv (sweep T M1 s w).world).log) :=
  ⟨(delivered_sublist_attempted c _).trans (exec_attempted T acts s w c hwf hadm),
    exec_attempted T acts s w c hwf hadm, fun _ _ => rfl⟩

/-- C3 on `demoRun` from the empty registry: peer 7, dialled after the first message, gets
the second and the third, in that order. -/
theorem C3_delivery_follows_submission_order_witness :
    NewServer.WF ∧ Admissible (failing []) demoRun NewServer ()
      ∧ delivered 7 (exec (failing []) demoRun NewServer ()).log = [[20], [30]]
      ∧ dispatched demoRun = [[10], [20], [30]]
      ∧ List.Sublist (delivered 7 (exec (failing []) demoRun NewServer ()).log)
          (dispatched demoRun) :=
  ⟨by decide, by decide, by decide, by decide,
    (C3_delivery_follows_submission_order (failing []) demoRun NewServer () 7 (by decide)
      (by decide)).1⟩

/-- C5: a peer whose send fails is closed but stays in the peer map: with the single peer 7
under "s2:8081" and a failing write, the sweep writes, closes, leaves `peers` as it was,
and the next sweep writes to 7 again. -/
theorem C5_failed_peer_stays_registered :
    (sweep (failing [7]) [104] ⟨[], [("s2:8081", 7)]⟩ ()).log
        = [Event.write 7 [104] false, Event.close 7]
      ∧ (sweep (failing [7]) [104] ⟨[], [("s2:8081", 7)]⟩ ()).srv.peers = [("s2:8081", 7)]
      ∧ 7 ∈ (sweep (failing [7]) [104] ⟨[], [("s2:8081", 7)]⟩ ()).srv.peers.values
      ∧ attempted 7 (handleBroadcasts (failing [7]) [[104], [105]]
          ⟨[], [("s2:8081", 7)]⟩ ()).log = [[104], [105]] := by
  decide

/-- C7: a sweep leaves the peer map as it was, whatever sends fail, and the client map after
it is the client map before it without exactly the clients to which the send of `M`
failed. -/
theorem C7_client_and_peer_failures_independent {W : Type} (T : Transport W) (M : Msg)
    (s : Server) (w : W) (hwf : s.WF) :
    (sweep T M s w).srv.peers = s.peers
      ∧ (sweep T M s w).srv.clients
          = s.clients.filter
              (fun e => decide (Event.write e.1 M false ∉ (sweep T M s w).log)) := by
  refine ⟨sweep_peers T M s w, ?_⟩
  rw [sweep_clients]
  apply List.filter_congr
  intro e he
  have hk : e.1 ∈ s.clients.keys := List.mem_map.mpr ⟨e, he, rfl⟩
  simp only [decide_not, sweep_failed_client T M s w hwf e.1 hk]

/-- C7 at `demo` when the writes to client 2 and to peer 7 fail: only client 2 leaves the
client map, the peer map is unchanged. -/
theorem C7_client_and_peer_failures_independent_witness :
    demo.WF
      ∧ (sweep (failing [2, 7]) [104] demo ()).srv.peers = demo.peers
      ∧ (sweep (failing [2, 7]) [104] demo ()).srv.clients = [(1, true)]
      ∧ (sweep (failing [2, 7]) [104] demo ()).srv.clients
          = demo.clients.filter
              (fun e => decide (Event.write e.1 [104] false
                ∉ (sweep (failing [2, 7]) [104] demo ()).log)) :=
  ⟨by decide,
    (C7_client_and_peer_failures_independent (failing [2, 7]) [104] demo () (by decide)).1,
    by decide,
    (C7_client_and_peer_failures_independent (failing [2, 7]) [104] demo () (by decide)).2⟩

/-! ## The read loops and the registry -/

/-- C4, as stated, fails: with the clients 1 and 2 registered, the read loop of client 1
puts the bare message on the channel and the sweep for it writes to client 1 too. -/
theorem C4_originator_gets_its_message :
    (handleConnections.read ⟨[(1, true), (2, true)], []⟩ 1 (some [104, 105])).2
        = some [104, 105]
      ∧ (sweep (failing []) [104, 105] ⟨[(1, true), (2, true)], []⟩ ()).log
        = [Event.write 1 [104, 105] true, Event.write 2 [104, 105] true]
      ∧ attempted 1 (sweep (failing []) [104, 105] ⟨[(1, true), (2, true)], []⟩ ()).log
        ≠ [] := by
  decide

/-- C4, amended: for registered clients `A` and `B` and a message `M` read from `A`, the read
loop leaves the registry as it is and puts `M` alone on the channel, and the sweep for `M`
makes exactly one send of `M` to `B` and exactly one to `A`: the originator is not
excluded. -/
theorem C4_fanout_includes_originator {W : Type} (T : Transport W) (s : Server) (w : W)
    (A B : Conn) (M : Msg) (hwf : s.WF) (hA : A ∈ s.clients.keys) (hB : B ∈ s.clients.keys) :
    handleConnections.read s A (some M) = (s, some M)
      ∧ attempted B (sweep T M s w).log = [M]
      ∧ attempted A (sweep T M s w).log = [M] :=
  ⟨rfl, sweep_attempted_of_mem T M B s w hwf (List.mem_append_left _ hB),
    sweep_attempted_of_mem T M A s w hwf (List.mem_append_left _ hA)⟩

/-- C4 amended, at `demo` with `A = 1` and `B = 2`. -/
theorem C4_fanout_includes_originator_witness :
    demo.WF ∧ 1 ∈ demo.clients.keys ∧ 2 ∈ demo.clients.keys
      ∧ handleConnections.read demo 1 (some [104]) = (demo, some [104])
      ∧ attempted 2 (sweep (failing []) [104] demo ()).log = [[104]]
      ∧ attempted 1 (sweep (failing []) [104] demo ()).log = [[104]] :=
  ⟨by decide, by decide, by decide,
    C4_fanout_includes_originator (failing []) demo () 1 2 [104] (by decide) (by decide)
      (by decide)⟩

/-- C6, as stated, fails: after `handlePeerConnections` accepts connection 5 the registry is
still empty and a sweep writes nothing to 5, while the same connection dialled by
`connectToPeer` is registered and written to. -/
theorem C6_inbound_peer_not_registered :
    handlePeerConnections.accept NewServer (some 5) = NewServer
      ∧ 5 ∉ (handlePeerConnections.accept NewServer (some 5)).peers.values
      ∧ (sweep (failing []) [104] (handlePeerConnections.accept NewServer (some 5)) ()).log
        = []
      ∧ (sweep (failing []) [104] (connectToPeer.dial NewServer "s2:8081" (some 5)) ()).log
        = [Event.write 5 [104] true] := by
  decide

/-- C6, amended: `handlePeerConnections` never changes the registry, neither when it accepts
a connection nor when its read fails, and it puts every message it reads on the channel; so
a new inbound connection is in neither map and a sweep makes no send attempt to it. Only
`connectToPeer` registers: the connection it dials is in the peer map and gets exactly one
send attempt in the next sweep. -/
theorem C6_inbound_peer_is_receive_only {W : Type} (T : Transport W) (s : Server) (w : W)
    (conn : Conn) (peerAddress : Addr) (M : Msg) (hwf : s.WF) (hnew : conn ∉ s.conns) :
    handlePeerConnections.accept s (some conn) = s
      ∧ handlePeerConnections.read s conn none = (s, none)
      ∧ handlePeerConnections.read s conn (some M) = (s, some M)
      ∧ conn ∉ (handlePeerConnections.accept s (some conn)).conns
      ∧ attempted conn (sweep T M (handlePeerConnections.accept s (some conn)) w).log = []
      ∧ conn ∈ (connectToPeer.dial s peerAddress (some conn)).peers.values
      ∧ attempted conn (sweep T M (connectToPeer.dial s peerAddress (some conn)) w).log
        = [M] := by
  have hwf2 : (connectToPeer.dial s peerAddress (some conn)).WF :=
    step_conns_WF T (Action.dial peerAddress conn) s w hwf hnew
  have hin : conn ∈ (connectToPeer.dial s peerAddress (some conn)).peers.values := by
    simp [connectToPeer.dial, GoMap.set, GoMap.values]
  exact ⟨rfl, rfl, rfl, hnew, sweep_attempted_of_not_mem T M conn s w hnew, hin,
    sweep_attempted_of_mem T M conn _ w hwf2 (List.mem_append_right _ hin)⟩

/-- C6 amended, at `demo` with the new connection 5. -/
theorem C6_inbound_peer_is_receive_only_witness :
    demo.WF ∧ 5 ∉ demo.conns
      ∧ handlePeerConnections.accept demo (some 5) = demo
      ∧ handlePeerConnections.read demo 5 none = (demo, none)
      ∧ handlePeerConnections.read demo 5 (some [104]) = (demo, some [104])
      ∧ 5 ∉ (handlePeerConnections.accept demo (some 5)).conns
      ∧ attempted 5 (sweep (failing []) [104]
          (handlePeerConnections.accept demo (some 5)) ()).log = []
      ∧ 5 ∈ (connectToPeer.dial demo "s3:8082" (some 5)).peers.values
      ∧ attempted 5 (sweep (failing []) [104]
          (connectToPeer.dial demo "s3:8082" (some 5)) ()).log = [[104]] :=
  ⟨by decide, by decide,
    C6_inbound_peer_is_receive_only (failing []) demo () 5 "s3:8082" [104] (by decide)
      (by decide)⟩

/-- C8, as stated, fails on the peer path: dialling "s2:8081" twice leaves only the second
connection, 2, in the peer map; connection 1 is then absent, yet the removal made by its
read loop changes the registry and unregisters connection 2. -/
theorem C8_peer_removal_hits_other_connection :
    connectToPeer.dial (connectToPeer.dial NewServer "s2:8081" (some 1)) "s2:8081" (some 2)
        = ⟨[], [("s2:8081", 2)]⟩
      ∧ 1 ∉ (⟨[], [("s2:8081", 2)]⟩ : Server).conns
      ∧ (connectToPeer.read ⟨[], [("s2:8081", 2)]⟩ "s2:8081" 1 none).1
        ≠ ⟨[], [("s2:8081", 2)]⟩
      ∧ 2 ∈ (⟨[], [("s2:8081", 2)]⟩ : Server).peers.values
      ∧ 2 ∉ (connectToPeer.read ⟨[], [("s2:8081", 2)]⟩ "s2:8081" 1 none).1.peers.values := by
  decide

/-- C8, amended: the removal of a client `c` made by the read loop of `handleConnections`
leaves the registry unchanged when `c` is absent, gives the same registry when done twice as
when done once, changes the membership of no other client and leaves the peer map alone;
the removal made by the read loop of `connectToPeer` is by peer address: it leaves the
registry unchanged when there is no entry under the address, gives the same registry when
done twice as when done once, changes no entry under another address and leaves the client
map alone. -/
theorem C8_unregister_idempotent (s : Server) (c conn : Conn) (peerAddress : Addr) :
    (c ∉ s.clients.keys → (handleConnections.read s c none).1 = s)
      ∧ (handleConnections.read (handleConnections.read s c none).1 c none).1
          = (handleConnections.read s c none).1
      ∧ (∀ x, x ≠ c →
          (x ∈ (handleConnections.read s c none).1.clients.keys ↔ x ∈ s.clients.keys))
      ∧ (handleConnections.read s c none).1.peers = s.peers
      ∧ (peerAddress ∉ s.peers.keys → (connectToPeer.read s peerAddress conn none).1 = s)
      ∧ (connectToPeer.read (connectToPeer.read s peerAddress conn none).1
            peerAddress conn none).1
          = (connectToPeer.read s peerAddress conn none).1
      ∧ (∀ e : Addr × Conn, e.1 ≠ peerAddress →
          (e ∈ (connectToPeer.read s peerAddress conn none).1.peers ↔ e ∈ s.peers))
      ∧ (connectToPeer.read s peerAddress conn none).1.clients = s.clients := by
  refine ⟨fun h => ?_, ?_, fun x hx => ?_, rfl, fun h => ?_, ?_, fun e he => ?_, rfl⟩
  · simp only [handleConnections.read, GoMap.delete_of_not_mem _ _ h]
  · simp only [handleConnections.read, GoMap.delete_delete]
  · simp only [handleConnections.read, GoMap.mem_keys_delete]
    exact ⟨fun h => h.1, fun h => ⟨h, hx⟩⟩
  · simp only [connectToPeer.read, GoMap.delete_of_not_mem _ _ h]
  · simp only [connectToPeer.read, GoMap.delete_delete]
  · simp only [connectToPeer.read, GoMap.mem_delete]
    exact ⟨fun h => h.1, fun h => ⟨h, he⟩⟩

/-- C8 amended, at `demo`: client 9 and address "s9:1" are absent and their removal changes
nothing; removing client 1 keeps client 2. -/
theorem C8_unregister_idempotent_witness :
    9 ∉ demo.clients.keys ∧ "s9:1" ∉ demo.peers.keys
      ∧ (handleConnections.read demo 9 none).1 = demo
      ∧ (connectToPeer.read demo "s9:1" 9 none).1 = demo
      ∧ (2 ∈ (handleConnections.read demo 1 none).1.clients.keys ↔ 2 ∈ demo.clients.keys) :=
  ⟨by decide, by decide,
    (C8_unregister_idempotent demo 9 9 "s9:1").1 (by decide),
    (C8_unregister_idempotent demo 9 9 "s9:1").2.2.2.2.1 (by decide),
    (C8_unregister_idempotent demo 1 9 "s9:1").2.2.1 2 (by decide)⟩

/-- C9, as stated, fails: after two connections, 1 and 2, are dialled at "s2:8081" and
registered, connection 1 is not in the peer map and a sweep writes only to connection 2. -/
theorem C9_second_dial_replaces_first :
    (connectToPeer.dial (connectToPeer.dial NewServer "s2:8081" (some 1))
        "s2:8081" (some 2)).peers = [("s2:8081", 2)]
      ∧ 1 ∉ (connectToPeer.dial (connectToPeer.dial NewServer "s2:8081" (some 1))
          "s2:8081" (some 2)).peers.values
      ∧ (sweep (failing []) [104]
          (connectToPeer.dial (connectToPeer.dial NewServer "s2:8081" (some 1))
            "s2:8081" (some 2)) ()).log = [Event.write 2 [104] true] := by
  decide

/-- C9, amended: the client map is keyed by connection identity, the peer map by peer
address. Two distinct new clients are both members after both are registered and a read
error on one leaves the other registered. Of two distinct new connections dialled at the
same address, only the one registered last is in the peer map after both are registered,
only it gets a send attempt in a sweep, exactly one, and a read error on it unregisters
it. -/
theorem C9_clients_by_identity_peers_by_address {W : Type} (T : Transport W) (s : Server)
    (w : W) (peerAddress : Addr) (c1 c2 : Conn) (M : Msg) (hwf : s.WF)
    (h1 : c1 ∉ s.conns) (h2 : c2 ∉ s.conns) (hne : c1 ≠ c2) :
    (c1 ∈ (handleConnections.accept (handleConnections.accept s (some c1))
          (some c2)).clients.keys
        ∧ c2 ∈ (handleConnections.accept (handleConnections.accept s (some c1))
          (some c2)).clients.keys
        ∧ c2 ∈ (handleConnections.read (handleConnections.accept
            (handleConnections.accept s (some c1)) (some c2)) c1 none).1.clients.keys)
      ∧ (c2 ∈ (connectToPeer.dial (connectToPeer.dial s peerAddress (some c1))
            peerAddress (some c2)).peers.values
        ∧ c1 ∉ (connectToPeer.dial (connectToPeer.dial s peerAddress (some c1))
            peerAddress (some c2)).peers.values
        ∧ attempted c2 (sweep T M (connectToPeer.dial
            (connectToPeer.dial s peerAddress (some c1)) peerAddress (some c2)) w).log = [M]
        ∧ attempted c1 (sweep T M (connectToPeer.dial
            (connectToPeer.dial s peerAddress (some c1)) peerAddress (some c2)) w).log = []
        ∧ c2 ∉ (connectToPeer.read (connectToPeer.dial
            (connectToPeer.dial s peerAddress (some c1)) peerAddress (some c2))
            peerAddress c2 none).1.peers.values) := by
  have hs2 : connectToPeer.dial (connectToPeer.dial s peerAddress (some c1))
      peerAddress (some c2) = connectToPeer.dial s peerAddress (some c2) := by
    simp only [connectToPeer.dial, GoMap.set_set]
  have hp1 : c1 ∉ s.peers.values := fun h => h1 (List.mem_append_right _ h)
  have hp2 : c2 ∉ s.peers.values := fun h => h2 (List.mem_append_right _ h)
  have hk1 : c1 ∉ s.clients.keys := fun h => h1 (List.mem_append_left _ h)
  have hwf2 : (connectToPeer.dial s peerAddress (some c2)).WF :=
    step_conns_WF T (Action.dial peerAddress c2) s w hwf h2
  have hin2 : c2 ∈ (connectToPeer.dial s peerAddress (some c2)).peers.values := by
    simp [connectToPeer.dial, GoMap.values_set]
  have hout1 : c1 ∉ (connectToPeer.dial s peerAddress (some c2)).peers.values := by
    simp only [connectToPeer.dial, GoMap.values_set, List.mem_append, List.mem_singleton,
      not_or]
    exact ⟨fun h => hp1 (GoMap.mem_values_delete _ _ _ h), hne⟩
  refine ⟨⟨?_, ?_, ?_⟩, ?_⟩
  · simp [handleConnections.accept, GoMap.mem_keys_set]
  · simp [handleConnections.accept, GoMap.mem_keys_set]
  · simp [handleConnections.read, handleConnections.accept, GoMap.mem_keys_delete,
      GoMap.mem_keys_set, Ne.symm hne]
  · rw [hs2]
    refine ⟨hin2, hout1, sweep_attempted_of_mem T M c2 _ w hwf2 (List.mem_append_right _ hin2),
      sweep_attempted_of_not_mem T M c1 _ w ?_, ?_⟩
    · intro h
      rcases List.mem_append.mp h with h | h
      · exact hk1 h
      · exact hout1 h
    · simp only [connectToPeer.read, connectToPeer.dial, GoMap.delete_set]
      exact fun h => hp2 (GoMap.mem_values_delete _ _ _ h)

/-- C9 amended, at `demo` with the new connections 3 and 4 and the address "s3:8082". -/
theorem C9_clients_by_identity_peers_by_address_witness :
    demo.WF ∧ 3 ∉ demo.conns ∧ 4 ∉ demo.conns ∧ (3 : Conn) ≠ 4
      ∧ (connectToPeer.dial (connectToPeer.dial demo "s3:8082" (some 3))
          "s3:8082" (some 4)).peers = [("s2:8081", 7), ("s3:8082", 4)]
      ∧ attempted 4 (sweep (failing []) [104] (connectToPeer.dial
          (connectToPeer.dial demo "s3:8082" (some 3)) "s3:8082" (some 4)) ()).log = [[104]]
      ∧ attempted 3 (sweep (failing []) [104] (connectToPeer.dial
          (connectToPeer.dial demo "s3:8082" (some 3)) "s3:8082" (some 4)) ()).log = []
      ∧ 4 ∈ (handleConnections.read (handleConnections.accept
          (handleConnections.accept demo (some 3)) (some 4)) 3 none).1.clients.keys :=
  ⟨by decide, by decide, by decide, by decide, by decide,
    (C9_clients_by_identity_peers_by_address (failing []) demo () "s3:8082" 3 4 [104]
      (by decide) (by decide) (by decide) (by decide)).2.2.2.1,
    (C9_clients_by_identity_peers_by_address (failing []) demo () "s3:8082" 3 4 [104]
      (by decide) (by decide) (by decide) (by decide)).2.2.2.2.1,
    (C9_clients_by_identity_peers_by_address (failing []) demo () "s3:8082" 3 4 [104]
      (by decide) (by decide) (by decide) (by decide)).1.2.2⟩

/-! ## The mutex and the channel -/

theorem Sys.move_deadlocked (s s1 : Sys) (m : Move) (hd : s.Deadlocked)
    (hr : s.reader ≠ ReaderPc.remove) (hm : s.move m = some s1) :
    s1.Deadlocked ∧ s1.reader ≠ ReaderPc.remove := by
  obtain ⟨h1, h2, h3⟩ := hd
  cases m <;> simp only [Sys.move] at hm <;> split at hm <;>
    simp_all [Sys.Deadlocked] <;> subst hm <;> simp_all

theorem Sys.moves_deadlocked (ms : List Move) (s s1 : Sys) (hd : s.Deadlocked)
    (hr : s.reader ≠ ReaderPc.remove) (hm : s.moves ms = some s1) : s1.Deadlocked := by
  induction ms generalizing s with
  | nil =>
    simp only [Sys.moves, Option.some.injEq] at hm
    exact hm ▸ hd
  | cons m rest ih =>
    simp only [Sys.moves] at hm
    cases h : s.move m with
    | none => simp [h] at hm
    | some s2 =>
      rw [h] at hm
      exact ih s2 (Sys.move_deadlocked s s2 m hd hr h).1 (Sys.move_deadlocked s s2 m hd hr h).2 hm

/-- C10: `UpdateAndBroadcastScore` takes `s.mu` before it sends on the channel, and a
deadlock is reachable: the read loop reads a message and hands it to the dispatcher, which
goes to `s.mu.Lock()`; `UpdateAndBroadcastScore` takes `s.mu` first and blocks on its send.
In that state neither the dispatcher nor `UpdateAndBroadcastScore` can move, and every
interleaving that goes on from there stays in such a state. -/
theorem C10_admin_holds_lock_while_sending_deadlock :
    Sys.init.move Move.adminLock
        = some ⟨DispatchPc.receive, AdminPc.send, ReaderPc.read, some Owner.admin⟩
      ∧ Sys.init.moves [Move.readMsg, Move.readerSend, Move.adminLock]
        = some ⟨DispatchPc.lock, AdminPc.send, ReaderPc.read, some Owner.admin⟩
      ∧ Sys.Deadlocked ⟨DispatchPc.lock, AdminPc.send, ReaderPc.read, some Owner.admin⟩
      ∧ Sys.move ⟨DispatchPc.lock, AdminPc.send, ReaderPc.read, some Owner.admin⟩
          Move.dispatchLock = none
      ∧ Sys.move ⟨DispatchPc.lock, AdminPc.send, ReaderPc.read, some Owner.admin⟩
          Move.adminSend = none
      ∧ ∀ ms s1,
          Sys.moves ⟨DispatchPc.lock, AdminPc.send, ReaderPc.read, some Owner.admin⟩ ms
            = some s1 → s1.Deadlocked :=
  ⟨by decide, by decide, by decide, by decide, by decide,
    fun ms s1 h => Sys.moves_deadlocked ms _ s1 (by decide) (by decide) h⟩

end BroadcastServer
